import Mathlib

/-!
Verification of the fence-counting string-extraction automaton
(`StringFinder` in `src/lib.rs`).

The automaton is embedded shallowly: the Rust struct `StringFinder`
becomes a Lean structure (without the character source, which is
externalized into `runAux`), each private method (`search`,
`count_start`, `inside_string`, `count_end`) becomes a Lean function on
that structure, and the `Iterator::next` pull loop becomes the
recursive function `runAux` that processes a list of characters and
collects every literal the automaton completes.

Counters (`running_count`, `target_count`, Rust `u32`) are modelled as
`Nat`; the invariant theorems below establish that the one decrement
site (`count_end`) never underflows on reachable states, so `Nat`
subtraction agrees with the machine subtraction there.
-/

namespace StringFinderModel

/-- The `State` enum of `src/lib.rs` (lines 14–19). -/
inductive State
  | Searching
  | CountingStart
  | InsideString
  | CountingEnd
  deriving DecidableEq, Repr

/-- The `StringFinder` struct of `src/lib.rs` (lines 1–12), minus the
character source `chars : T`, which is externalized into `runAux`.
`String` fields are `List Char`. -/
structure StringFinder where
  state : State
  ignoring : Bool
  running_count : Nat
  target_count : Nat
  buffer : List Char
  result : List Char
  deriving DecidableEq, Repr

/-- The quote branch of `count_end` (`src/lib.rs` lines 137–144):
decrement `running_count`; on reaching 0 the literal is complete:
reset `target_count`, swap `buffer` and `result`, return to Searching.
Factored out so that the tail call `inside_string → count_end` with a
quote character (which always takes this branch) needs no mutual
recursion. -/
def count_end_quote (sf : StringFinder) : StringFinder :=
  let r := sf.running_count - 1
  if r = 0 then
    { sf with
        running_count := r
        target_count := 0
        buffer := sf.result
        result := sf.buffer
        state := State.Searching }
  else
    { sf with running_count := r }

/-- `StringFinder::inside_string` (`src/lib.rs` lines 116–133). -/
def inside_string (sf : StringFinder) (c : Char) : StringFinder :=
  if sf.ignoring then
    { sf with buffer := sf.buffer ++ [c], ignoring := false }
  else if c = '"' then
    count_end_quote { sf with state := State.CountingEnd }
  else if c = '\\' then
    { sf with buffer := sf.buffer ++ [c], ignoring := true }
  else
    { sf with buffer := sf.buffer ++ [c] }

/-- `StringFinder::count_end` (`src/lib.rs` lines 135–154).  The
non-quote branch pushes `target_count - running_count` quote
characters back onto the buffer, restores `running_count`, and
re-dispatches the character through `inside_string`. -/
def count_end (sf : StringFinder) (c : Char) : StringFinder :=
  if c = '"' then
    count_end_quote sf
  else
    inside_string
      { sf with
          buffer := sf.buffer ++ List.replicate (sf.target_count - sf.running_count) '"'
          running_count := sf.target_count
          state := State.InsideString } c

/-- `StringFinder::count_start` (`src/lib.rs` lines 105–114). -/
def count_start (sf : StringFinder) (c : Char) : StringFinder :=
  if c = '"' then
    { sf with running_count := sf.running_count + 1 }
  else
    inside_string
      { sf with
          target_count := sf.running_count
          state := State.InsideString } c

/-- `StringFinder::search` (`src/lib.rs` lines 90–103). -/
def search (sf : StringFinder) (c : Char) : StringFinder :=
  if sf.ignoring then
    { sf with ignoring := false }
  else if c = '"' then
    count_start { sf with state := State.CountingStart } c
  else if c = '\\' then
    { sf with ignoring := true }
  else
    sf

/-- `StringFinder::process_char` (`src/lib.rs` lines 81–88). -/
def process_char (sf : StringFinder) (c : Char) : StringFinder :=
  match sf.state with
  | State.Searching => search sf c
  | State.CountingStart => count_start sf c
  | State.InsideString => inside_string sf c
  | State.CountingEnd => count_end sf c

/-- `StringFinder::from` (`src/lib.rs` lines 69–79): the initial state. -/
def stringFinderFrom : StringFinder :=
  { state := State.Searching
    ignoring := false
    running_count := 0
    target_count := 0
    buffer := []
    result := [] }

/-- The `Iterator::next` pull loop (`src/lib.rs` lines 43–53), run to
exhaustion over a list of characters: each character is processed
while `result` is empty; as soon as `result` is non-empty it is handed
to the consumer (swapped out for an empty string).  Returns the final
automaton state and the list of yielded literals in order.  When the
input ends, `next` returns `None`: nothing further is produced. -/
def runAux : StringFinder → List Char → StringFinder × List (List Char)
  | sf, [] => (sf, [])
  | sf, c :: cs =>
    let sf' := process_char sf c
    if sf'.result = [] then
      runAux sf' cs
    else
      let p := runAux { sf' with result := [] } cs
      (p.1, sf'.result :: p.2)

/-- The full extraction pass: `StringFinder::from(chars)` collected to
a list, as in the tests of `src/lib.rs`. -/
def strings (input : List Char) : List (List Char) :=
  (runAux stringFinderFrom input).2

/-- A state is reachable when some input stream drives the automaton
from the initial state to it (through the `next` pull loop, which
clears `result` at each yield). -/
def Reachable (sf : StringFinder) : Prop :=
  ∃ cs : List Char, (runAux stringFinderFrom cs).1 = sf

/-- The inductive invariant of the automaton's counters and buffer. -/
def Inv (sf : StringFinder) : Prop :=
  match sf.state with
  | State.Searching => sf.target_count = 0 ∧ sf.running_count = 0
  | State.CountingStart =>
      1 ≤ sf.running_count ∧ sf.target_count = 0 ∧ sf.ignoring = false
  | State.InsideString =>
      1 ≤ sf.target_count ∧ sf.running_count = sf.target_count ∧ sf.buffer ≠ []
  | State.CountingEnd =>
      1 ≤ sf.running_count ∧ sf.running_count ≤ sf.target_count ∧
        sf.buffer ≠ [] ∧ sf.ignoring = false

end StringFinderModel

namespace StringFinderModel

/-! ## Helper lemmas: the inductive invariant -/

/-- `Inv` is preserved by processing one character. -/
theorem inv_process (sf : StringFinder) (c : Char) (h : Inv sf) :
    Inv (process_char sf c) := by
  rcases sf with ⟨st, ign, rc, tc, buf, res⟩
  cases st <;> cases ign <;>
    simp only [Inv, process_char, search, count_start, inside_string, count_end,
      count_end_quote] at h ⊢ <;>
    split_ifs <;>
    simp_all [Inv] <;>
    omega

/-- `Inv` does not mention `result`, so clearing `result` (the yield
step of the pull loop) preserves it. -/
theorem inv_clear (sf : StringFinder) (h : Inv sf) : Inv { sf with result := [] } := by
  rcases sf with ⟨st, ign, rc, tc, buf, res⟩
  cases st <;> simpa [Inv] using h

/-- `Inv` is preserved by the whole pull loop. -/
theorem inv_runAux (cs : List Char) : ∀ sf : StringFinder, Inv sf → Inv (runAux sf cs).1 := by
  induction cs with
  | nil => intro sf h; exact h
  | cons c cs ih =>
    intro sf h
    simp only [runAux]
    split
    · exact ih _ (inv_process sf c h)
    · exact ih _ (inv_clear _ (inv_process sf c h))

/-- The initial automaton satisfies `Inv`. -/
theorem inv_init : Inv stringFinderFrom := by simp [Inv, stringFinderFrom]

/-- Every reachable state satisfies `Inv`. -/
theorem reachable_inv (sf : StringFinder) (h : Reachable sf) : Inv sf := by
  obtain ⟨cs, hcs⟩ := h
  exact hcs ▸ inv_runAux cs stringFinderFrom inv_init

/-! ## Helper lemmas: runs of the pull loop -/

/-- The pull loop is compositional: running on `cs1 ++ cs2` threads the
final state of `cs1` into `cs2` and concatenates the yields. -/
theorem runAux_append (cs1 : List Char) : ∀ (sf : StringFinder) (cs2 : List Char),
    runAux sf (cs1 ++ cs2) =
      ((runAux (runAux sf cs1).1 cs2).1,
        (runAux sf cs1).2 ++ (runAux (runAux sf cs1).1 cs2).2) := by
  induction cs1 with
  | nil => intro sf cs2; simp [runAux]
  | cons c cs1 ih =>
    intro sf cs2
    by_cases h : (process_char sf c).result = []
    · simp only [List.cons_append, runAux, h, if_pos]
      exact ih _ _
    · simp only [List.cons_append, runAux, h, if_neg, not_false_iff]
      simp [ih]

/-- Every literal the pull loop yields is non-empty: the loop only
hands out `result` after checking it is non-empty. -/
theorem runAux_mem_ne_nil (cs : List Char) : ∀ (sf : StringFinder) (s : List Char),
    s ∈ (runAux sf cs).2 → s ≠ [] := by
  induction cs with
  | nil => intro sf s hs; simp [runAux] at hs
  | cons c cs ih =>
    intro sf s hs
    by_cases h : (process_char sf c).result = []
    · rw [runAux] at hs
      simp only [h, if_pos] at hs
      exact ih _ s hs
    · rw [runAux] at hs
      simp only [h, if_neg, not_false_iff, List.mem_cons] at hs
      rcases hs with rfl | hs
      · exact h
      · exact ih _ s hs

/-- While Searching, characters other than the quote character are
consumed without yielding anything or leaving Searching. -/
theorem runAux_no_quote (cs : List Char) : ∀ sf : StringFinder,
    sf.state = State.Searching → sf.result = [] → (∀ c ∈ cs, c ≠ '"') →
    (runAux sf cs).2 = [] ∧ (runAux sf cs).1.state = State.Searching ∧
      (runAux sf cs).1.result = [] := by
  induction cs with
  | nil => intro sf h1 h2 _; exact ⟨rfl, h1, h2⟩
  | cons c cs ih =>
    intro sf h1 h2 h3
    have hc : c ≠ '"' := h3 c (List.mem_cons_self c cs)
    have hkeep : (process_char sf c).state = State.Searching ∧
        (process_char sf c).result = [] := by
      rcases sf with ⟨st, ign, rc, tc, buf, res⟩
      simp only at h1 h2
      subst h1; subst h2
      cases ign <;> simp [process_char, search, hc] <;> split_ifs <;> simp
    simp only [runAux, hkeep.2, if_pos]
    exact ih _ hkeep.1 hkeep.2 (fun d hd => h3 d (List.mem_cons_of_mem c hd))

/-! ## Helper lemmas: quote runs while counting a close -/

/-- In CountingEnd, a run of `j` quote characters with `j` strictly
below the close-counter just decrements the counter `j` times. -/
theorem counting_end_quote_run (j : Nat) : ∀ sf : StringFinder,
    sf.state = State.CountingEnd → j < sf.running_count →
    List.foldl process_char sf (List.replicate j '"') =
      { sf with running_count := sf.running_count - j } := by
  induction j with
  | zero => intro sf h1 h2; rfl
  | succ j ih =>
    intro sf h1 h2
    rcases sf with ⟨st, ign, rc, tc, buf, res⟩
    simp only at h1 h2
    subst h1
    rw [List.replicate_succ, List.foldl_cons]
    have hr : ¬(rc - 1 = 0) := by omega
    have hstep : process_char ⟨State.CountingEnd, ign, rc, tc, buf, res⟩ '"' =
        ⟨State.CountingEnd, ign, rc - 1, tc, buf, res⟩ := by
      simp [process_char, count_end, count_end_quote, hr]
    have hlt : j < rc - 1 := by omega
    have harith : rc - 1 - j = rc - (j + 1) := by omega
    rw [hstep, ih _ rfl hlt, harith]

/-- In CountingEnd with close-counter `m ≥ 1`, a run of exactly `m`
quote characters completes the literal: the automaton returns to
Searching with both counters reset and `buffer` and `result` swapped. -/
theorem counting_end_close_run : ∀ (m : Nat), ∀ sf : StringFinder,
    sf.state = State.CountingEnd → sf.running_count = m → 1 ≤ m →
    List.foldl process_char sf (List.replicate m '"') =
      { sf with
          state := State.Searching
          running_count := 0
          target_count := 0
          buffer := sf.result
          result := sf.buffer } := by
  intro m
  induction m with
  | zero => intro sf _ _ h3; omega
  | succ k ih =>
    intro sf h1 h2 _
    rcases sf with ⟨st, ign, rc, tc, buf, res⟩
    simp only at h1 h2
    subst h1; subst h2
    rw [List.replicate_succ, List.foldl_cons]
    by_cases hk : k = 0
    · subst hk
      have hstep : process_char ⟨State.CountingEnd, ign, 1, tc, buf, res⟩ '"' =
          ⟨State.Searching, ign, 0, 0, res, buf⟩ := by
        simp [process_char, count_end, count_end_quote]
      rw [hstep]
      rfl
    · have hstep : process_char ⟨State.CountingEnd, ign, k + 1, tc, buf, res⟩ '"' =
          ⟨State.CountingEnd, ign, k, tc, buf, res⟩ := by
        simp [process_char, count_end, count_end_quote, hk]
      rw [hstep, ih _ rfl rfl (by omega)]

/-- A too-short interior quote run is recovered verbatim: from Inside,
`k` quotes (with `1 ≤ k` below the fence length) followed by a
non-quote `c` is the same as appending those `k` quotes to the buffer
and re-dispatching `c` through the Inside handler. -/
theorem short_close_recovery (sf : StringFinder) (k : Nat) (c : Char)
    (h1 : sf.state = State.InsideString) (h2 : sf.ignoring = false)
    (h3 : sf.running_count = sf.target_count)
    (hk1 : 1 ≤ k) (hk2 : k < sf.target_count) (hc : c ≠ '"') :
    List.foldl process_char sf (List.replicate k '"' ++ [c]) =
      inside_string { sf with buffer := sf.buffer ++ List.replicate k '"' } c ∧
    (inside_string { sf with buffer := sf.buffer ++ List.replicate k '"' } c).state =
      State.InsideString := by
  rcases sf with ⟨st, ign, rc, tc, buf, res⟩
  simp only at h1 h2 h3 hk2 ⊢
  subst h1; subst h2; subst h3
  obtain ⟨j, rfl⟩ : ∃ j, k = j + 1 := ⟨k - 1, by omega⟩
  constructor
  · have hstep : process_char ⟨State.InsideString, false, rc, rc, buf, res⟩ '"' =
        ⟨State.CountingEnd, false, rc - 1, rc, buf, res⟩ := by
      simp [process_char, inside_string, count_end_quote, show ¬(rc - 1 = 0) by omega]
    have hlt : j < rc - 1 := by omega
    have hinner : List.foldl process_char ⟨State.InsideString, false, rc, rc, buf, res⟩
        (List.replicate (j + 1) '"') = ⟨State.CountingEnd, false, rc - 1 - j, rc, buf, res⟩ := by
      rw [List.replicate_succ, List.foldl_cons, hstep, counting_end_quote_run j _ rfl hlt]
    rw [List.foldl_append, hinner, List.foldl_cons, List.foldl_nil]
    have harith : rc - (rc - 1 - j) = j + 1 := by omega
    simp [process_char, count_end, hc, harith]
  · simp only [inside_string]
    split_ifs <;> simp_all

/-- From Inside with a matching counter, a run of exactly
`target_count` quote characters closes the literal. -/
theorem fence_close_exact (sf : StringFinder) (h1 : sf.state = State.InsideString)
    (h2 : sf.ignoring = false) (h3 : sf.running_count = sf.target_count)
    (h4 : 1 ≤ sf.target_count) :
    List.foldl process_char sf (List.replicate sf.target_count '"') =
      { sf with
          state := State.Searching
          running_count := 0
          target_count := 0
          buffer := sf.result
          result := sf.buffer } := by
  rcases sf with ⟨st, ign, rc, tc, buf, res⟩
  simp only at h1 h2 h3 h4 ⊢
  subst h1; subst h2; subst h3
  obtain ⟨t, rfl⟩ : ∃ t, rc = t + 1 := ⟨rc - 1, by omega⟩
  rw [List.replicate_succ, List.foldl_cons]
  by_cases ht : t = 0
  · subst ht
    have hstep : process_char ⟨State.InsideString, false, 1, 1, buf, res⟩ '"' =
        ⟨State.Searching, false, 0, 0, res, buf⟩ := by
      simp [process_char, inside_string, count_end_quote]
    rw [hstep]
    rfl
  · have hstep : process_char ⟨State.InsideString, false, t + 1, t + 1, buf, res⟩ '"' =
        ⟨State.CountingEnd, false, t, t + 1, buf, res⟩ := by
      simp [process_char, inside_string, count_end_quote, ht]
    rw [hstep, counting_end_close_run t _ rfl rfl (by omega)]

end StringFinderModel

namespace StringFinderModel

/-! ## The claims -/

/-- Claim C1: once a fence of length N is open (Inside, counter in
sync), an interior run of `k < N` consecutive quote characters does
not close the literal: processing the run followed by the non-quote
character that ends it is exactly appending those `k` quotes back to
the buffer and re-dispatching that character through the Inside
handler, which stays Inside.  In particular the input
`"""triple "super" test"""` yields exactly `[triple "super" test]`. -/
theorem claim_C1 :
    (∀ (sf : StringFinder) (k : Nat) (c : Char),
      sf.state = State.InsideString → sf.ignoring = false →
      sf.running_count = sf.target_count →
      1 ≤ k → k < sf.target_count → c ≠ '"' →
      List.foldl process_char sf (List.replicate k '"' ++ [c]) =
        inside_string { sf with buffer := sf.buffer ++ List.replicate k '"' } c ∧
      (inside_string { sf with buffer := sf.buffer ++ List.replicate k '"' } c).state =
        State.InsideString) ∧
    strings ("\"\"\"triple \"super\" test\"\"\"".data) =
      ["triple \"super\" test".data] :=
  ⟨short_close_recovery, by decide⟩

/-- Claim C2: closing consumes exactly `target_count` quote
characters: from Inside with the counter in sync, a run of exactly
`target_count` quotes returns the automaton to Searching with both
counters reset to 0 and the buffer moved into `result`; the resulting
state is plain Searching, so adjacent further quote characters are
processed fresh and may open a new fence at once, as in `"a""b"`
yielding `[a, b]`. -/
theorem claim_C2 :
    (∀ sf : StringFinder,
      sf.state = State.InsideString → sf.ignoring = false →
      sf.running_count = sf.target_count → 1 ≤ sf.target_count →
      List.foldl process_char sf (List.replicate sf.target_count '"') =
        { sf with
            state := State.Searching
            running_count := 0
            target_count := 0
            buffer := sf.result
            result := sf.buffer }) ∧
    strings ("\"a\"\"b\"".data) = ["a".data, "b".data] :=
  ⟨fence_close_exact, by decide⟩

/-- Claim C3: inside a literal, an escape character is itself appended
to the buffer and the next character is appended verbatim — even a
quote character — leaving state, counters and `escapeNext` unchanged,
so the fence is not closed and no close is attempted.  In particular
`"huge \"test\""` yields exactly `[huge \"test\"]`. -/
theorem claim_C3 :
    (∀ (sf : StringFinder) (c : Char),
      sf.state = State.InsideString → sf.ignoring = false →
      process_char (process_char sf '\\') c =
        { sf with buffer := sf.buffer ++ ['\\', c] }) ∧
    strings ("\"huge \\\"test\\\"\"".data) = ["huge \\\"test\\\"".data] := by
  constructor
  · intro sf c hst hig
    rcases sf with ⟨st, ign, rc, tc, buf, res⟩
    simp only at hst hig
    subst hst; subst hig
    have h1 : ('\\' : Char) ≠ '"' := by decide
    simp [process_char, inside_string, h1]
  · decide

/-- Claim C4: while Searching, an escape character followed by any
character (including the quote character) leaves the automaton exactly
where it was: the escaped character is consumed, `escapeNext` is
cleared, nothing is emitted, and no fence opens.  In particular
`This \" is a "test"` yields exactly `[test]`. -/
theorem claim_C4 :
    (∀ (sf : StringFinder) (c : Char),
      sf.state = State.Searching → sf.ignoring = false →
      process_char (process_char sf '\\') c = sf) ∧
    strings ("This \\\" is a \"test\"".data) = ["test".data] := by
  constructor
  · intro sf c hst hig
    rcases sf with ⟨st, ign, rc, tc, buf, res⟩
    simp only at hst hig
    subst hst; subst hig
    have h1 : ('\\' : Char) ≠ '"' := by decide
    simp [process_char, search, h1]
  · decide

/-- Claim C5: no error is ever raised — the pull loop on an exhausted
source yields nothing further from any state, discarding whatever is
buffered; concretely, an unterminated fence (`a "dangling`), a
trailing unresolved escape (`"ab\`), and a closing run shorter than
the opening run at end of input (`""ab"`) each produce the empty
sequence. -/
theorem claim_C5 :
    (∀ sf : StringFinder, runAux sf [] = (sf, [])) ∧
    strings ("a \"dangling".data) = [] ∧
    strings ("\"ab\\".data) = [] ∧
    strings ("\"\"ab\"".data) = [] :=
  ⟨fun _ => rfl, by decide, by decide, by decide⟩

/-- Claim C6: extraction is compositional over a prefix that returns
the automaton to its initial state, so several disjoint complete
literals are yielded in left-to-right order of appearance; in
particular `This "is" a "test"` yields exactly `[is, test]` in that
order. -/
theorem claim_C6 :
    (∀ cs1 cs2 : List Char,
      (runAux stringFinderFrom cs1).1 = stringFinderFrom →
      strings (cs1 ++ cs2) = strings cs1 ++ strings cs2) ∧
    strings ("This \"is\" a \"test\"".data) = ["is".data, "test".data] := by
  constructor
  · intro cs1 cs2 h
    simp only [strings, runAux_append, h]
  · decide

/-- Claim C7: an input stream in which the quote character never
occurs yields the empty sequence of literals. -/
theorem claim_C7 (cs : List Char) (h : '"' ∉ cs) : strings cs = [] :=
  (runAux_no_quote cs stringFinderFrom rfl rfl
    (fun c hc he => h (he ▸ hc))).1

/-- Claim C7 witness: a concrete quote-free input yields nothing. -/
theorem claim_C7_witness : strings ("hello \\ world".data) = [] :=
  claim_C7 ("hello \\ world".data) (by decide)

/-- Claim C8: in every reachable state, `target_count` is 0 while
Searching and at least 1 once a fence is open (Inside or
CountingEnd). -/
theorem claim_C8 (sf : StringFinder) (h : Reachable sf) :
    (sf.state = State.Searching → sf.target_count = 0) ∧
    ((sf.state = State.InsideString ∨ sf.state = State.CountingEnd) →
      1 ≤ sf.target_count) := by
  have hi := reachable_inv sf h
  rcases sf with ⟨st, ign, rc, tc, buf, res⟩
  cases st <;> simp_all [Inv] <;> omega

/-- Claim C8 witness: instantiated at the reachable state after the
input `"a` (a fence of length 1 is open). -/
theorem claim_C8_witness :
    (((runAux stringFinderFrom ("\"a".data)).1.state = State.Searching →
      (runAux stringFinderFrom ("\"a".data)).1.target_count = 0) ∧
     (((runAux stringFinderFrom ("\"a".data)).1.state = State.InsideString ∨
       (runAux stringFinderFrom ("\"a".data)).1.state = State.CountingEnd) →
      1 ≤ (runAux stringFinderFrom ("\"a".data)).1.target_count)) :=
  claim_C8 _ ⟨"\"a".data, rfl⟩

/-- Claim C9: every yielded literal is non-empty (the pull loop only
yields a non-empty `result`), and substantively: from any reachable
non-Searching state, a transition that completes a literal (lands in
Searching) always carries a non-empty `result`, because the buffer of
an open fence is never empty — so the empty-string sentinel of the
pull loop never skips or loops on a genuine literal. -/
theorem claim_C9 :
    (∀ cs s : List Char, s ∈ strings cs → s ≠ []) ∧
    (∀ (sf : StringFinder) (c : Char), Reachable sf →
      sf.state ≠ State.Searching →
      (process_char sf c).state = State.Searching →
      (process_char sf c).result ≠ []) := by
  constructor
  · intro cs s hs
    exact runAux_mem_ne_nil cs stringFinderFrom s hs
  · intro sf c h h1 h2
    have hi := reachable_inv sf h
    rcases sf with ⟨st, ign, rc, tc, buf, res⟩
    cases st <;>
      simp only [Inv] at hi <;>
      simp_all [process_char, search, count_start, inside_string, count_end,
        count_end_quote] <;>
      split_ifs at h2 ⊢ <;> simp_all

/-- Claim C10: in every reachable CountingEnd state the close counter
`running_count` is at least 1, so the unsigned decrement in
`count_end` never underflows. -/
theorem claim_C10 (sf : StringFinder) (h : Reachable sf)
    (hst : sf.state = State.CountingEnd) : 1 ≤ sf.running_count := by
  have hi := reachable_inv sf h
  rcases sf with ⟨st, ign, rc, tc, buf, res⟩
  cases st <;> simp_all [Inv]

/-- Claim C10 witness: instantiated at the reachable CountingEnd state
after the input `""a"` (fence of length 2, one closing quote seen). -/
theorem claim_C10_witness :
    1 ≤ (runAux stringFinderFrom ("\"\"a\"".data)).1.running_count :=
  claim_C10 _ ⟨"\"\"a\"".data, rfl⟩ (by decide)

end StringFinderModel
